import Mathlib

/-!
Shallow embedding of `lintorch/fcns/solve.py`: the batched conjugate-gradient
linear solver with bias shift (`(A - bias*M) x = B`), the squaring trick that
makes the effective operator positive-semi-definite, and the adjoint backward
rule of `solve_torchfcn`.

Tensors of shape `(nbatch, na, ncols)` are embedded as functions
`Fin nb → Fin n → Fin nc → ℚ` (exact rational arithmetic in place of floats);
tensors of shape `(nbatch, ncols)` (biases, dot products with `keepdim`) as
`Fin nb → Fin nc → ℚ`.  Python exceptions become an `Except SolveError` result.
-/

namespace LinTorch

/-- A `(nbatch, na, ncols)` torch tensor, entry-indexed. -/
abbrev Tensor (nb n nc : ℕ) : Type := Fin nb → Fin n → Fin nc → ℚ

/-- A `(nbatch, ncols)` tensor: a bias vector, or a `keepdim` reduction
over the middle dimension. -/
abbrev ColT (nb nc : ℕ) : Type := Fin nb → Fin nc → ℚ

/-- `biases.unsqueeze(1)` broadcast against a `(nbatch, na, ncols)` tensor. -/
def bcast {nb n nc : ℕ} (b : ColT nb nc) : Tensor nb n nc :=
  fun i _ k => b i k

/-- Broadcast-multiply a `(nbatch, 1, ncols)` tensor against a full tensor
(`alpha * P` and friends in the source). -/
def cmul {nb n nc : ℕ} (c : ColT nb nc) (T : Tensor nb n nc) : Tensor nb n nc :=
  fun i j k => c i k * T i j k

/-- `_dot(C, D) = (C*D).sum(dim=1, keepdim=True)`: columnwise dot product,
reducing over the middle (size-`n`) dimension, keeping batch and columns. -/
def _dot {nb n nc : ℕ} (C D : Tensor nb n nc) : ColT nb nc :=
  fun i k => ∑ j, C i j k * D i j k

/-- `_safe_divide(A, B, eps=1e-10)`: entries of the denominator whose absolute
value is below `1e-10` are overwritten with `1e-10` before dividing. -/
def _safe_divide {nb nc : ℕ} (A B : ColT nb nc) : ColT nb nc :=
  fun i k => A i k /
    (if |B i k| < mkRat 1 10000000000 then mkRat 1 10000000000 else B i k)

/-- `Rs_new.abs().max()`: the maximum absolute entry over the whole batch. -/
def maxAbs {nb nc : ℕ} (c : ColT nb nc) : ℚ :=
  (List.finRange nb).foldl
    (fun a i => (List.finRange nc).foldl (fun a2 k => max a2 |c i k|) a) 0

/-- `torch.allclose(B, torch.zeros_like(B))`: with the default tolerances
(`rtol=1e-5`, `atol=1e-8`) and a zero comparand this is
`∀ entry, |entry| ≤ 1e-8`. -/
def allcloseZero {nb n nc : ℕ} (B : Tensor nb n nc) : Bool :=
  (List.finRange nb).all fun i => (List.finRange n).all fun j =>
    (List.finRange nc).all fun k => decide (|B i j k| ≤ mkRat 1 100000000)

/-- Python's `str.lower()` as applied to the method name
(`config["method"].lower()`), embedded as a character-by-character map over
the string's character list. -/
def lowerStr (s : String) : String := ⟨s.data.map Char.toLower⟩

/-- The errors `solve.py` can raise. -/
inductive SolveError : Type where
  /-- forward: "The solve function cannot be used for non-symmetric
  transformation at the moment." -/
  | notSymmetric : SolveError
  /-- forward: "The solve function cannot be used for non-square
  transformation." -/
  | notSquare : SolveError
  /-- forward: "Unknown solve method: %s". -/
  | unknownMethod (name : String) : SolveError
  /-- conjgrad: "This function only works for real-symmetric matrix." -/
  | cgNotSymmetric : SolveError
  /-- `config["method"]` lookup on a dict with no such key. -/
  | keyError : SolveError
  /-- backward: `ctx.biases.unsqueeze(1)` with `ctx.biases is None`. -/
  | biasesNone : SolveError
deriving DecidableEq

/-- Structural (precondition-violation) errors, as opposed to configuration
errors: the operator is not symmetric or not square. -/
def SolveError.isStructural : SolveError → Bool
  | .notSymmetric => true
  | .notSquare => true
  | .cgNotSymmetric => true
  | _ => false

/-- A partial option dictionary: the keys `solve.py` reads
(`method`, `max_niter`, `min_eps`, `verbose`); a `none` field is an
absent key. -/
structure SolveOptions : Type where
  method : Option String := none
  max_niter : Option ℕ := none
  min_eps : Option ℚ := none
  verbose : Option Bool := none
deriving DecidableEq

/-- Modelled from the spec: the option-defaulting helper
`set_default_option(defaults, options)` from `lintorch.utils.misc` is outside
the covered source; per the spec it "merges a user-supplied partial
configuration dict with method defaults", user-supplied values taking
precedence over the defaults. -/
def set_default_option (defaults opts : SolveOptions) : SolveOptions where
  method := opts.method.orElse fun _ => defaults.method
  max_niter := opts.max_niter.orElse fun _ => defaults.max_niter
  min_eps := opts.min_eps.orElse fun _ => defaults.min_eps
  verbose := opts.verbose.orElse fun _ => defaults.verbose

/-- The bias-side operator `M`: a lintorch module applied as
`M(X, *mparams)`, with parameter list embedded as a single value of an
abstract type `μ`. -/
structure MModule (μ : Type) (nb n nc : ℕ) : Type where
  forward : Tensor nb n nc → μ → Tensor nb n nc

/-- The main operator `A`: a lintorch module applied as `A(X, *params)`
(parameters embedded as one value of abstract type `π`), with its
`is_symmetric` flag, declared `shape`, and optionally-registered
preconditioner `A.precond(X, *params, biases=…, M=…, mparams=…)`
(`precond = none` models `is_precond_set()` returning false). -/
structure AModule (π μ : Type) (nb n nc : ℕ) : Type where
  forward : Tensor nb n nc → π → Tensor nb n nc
  is_symmetric : Bool
  shape : ℕ × ℕ
  precond : Option (Tensor nb n nc → π → Option (ColT nb nc) →
      Option (MModule μ nb n nc) → μ → Tensor nb n nc) := none

/-- The `for i in range(max_niter)` loop of `conjgrad`, fuel-indexed on the
remaining iteration count.  State: current solution `X`, residual `R`,
search direction `P`, and `Rs_old`.  Each pass computes
`Ap = A(P)`, `alpha = _safe_divide(Rs_old, _dot(P, Ap))`,
`X += alpha*P`, `R -= alpha*Ap`, `prR = precond(R)`,
`Rs_new = _dot(R, prR)`, breaks returning the updated `X` when
`Rs_new.abs().max() < min_eps`, and otherwise continues with
`P = prR + _safe_divide(Rs_new, Rs_old)*P`, `Rs_old = Rs_new`. -/
def cgLoop {nb n nc : ℕ} (Aeff Peff : Tensor nb n nc → Tensor nb n nc)
    (min_eps : ℚ) :
    ℕ → Tensor nb n nc → Tensor nb n nc → Tensor nb n nc → ColT nb nc →
    Tensor nb n nc
  | 0, X, _R, _P, _Rs_old => X
  | niter + 1, X, R, P, Rs_old =>
    let Ap := Aeff P
    let alpha := _safe_divide Rs_old (_dot P Ap)
    let X' := X + cmul alpha P
    let R' := R - cmul alpha Ap
    let prR := Peff R'
    let Rs_new := _dot R' prR
    if maxAbs Rs_new < min_eps then X'
    else cgLoop Aeff Peff min_eps niter X' R'
      (prR + cmul (_safe_divide Rs_new Rs_old) P) Rs_new

/-- `cgLoop` instrumented with the number of loop bodies executed: identical
control flow, also returning how many iterations ran before returning. -/
def cgLoopIters {nb n nc : ℕ} (Aeff Peff : Tensor nb n nc → Tensor nb n nc)
    (min_eps : ℚ) :
    ℕ → Tensor nb n nc → Tensor nb n nc → Tensor nb n nc → ColT nb nc →
    Tensor nb n nc × ℕ
  | 0, X, _R, _P, _Rs_old => (X, 0)
  | niter + 1, X, R, P, Rs_old =>
    let Ap := Aeff P
    let alpha := _safe_divide Rs_old (_dot P Ap)
    let X' := X + cmul alpha P
    let R' := R - cmul alpha Ap
    let prR := Peff R'
    let Rs_new := _dot R' prR
    if maxAbs Rs_new < min_eps then (X', 1)
    else
      let rest := cgLoopIters Aeff Peff min_eps niter X' R'
        (prR + cmul (_safe_divide Rs_new Rs_old) P) Rs_new
      (rest.1, rest.2 + 1)

/-- `conjgrad(A, params, B, biases, M, mparams, **options)`, translated
clause by clause: option defaulting, the symmetry re-check, preconditioner
setup (`is_precond_set` / identity), the shifted operator `Aa`, the
squaring `B = Aa(B)`, `A = λX. Aa(Aa(X))`, `precond = λX. precondt(precondt(X))`,
the `torch.allclose(B, X)` zero-right-hand-side shortcut, and the CG loop. -/
def conjgrad {π μ : Type} {nb n nc : ℕ} (A : AModule π μ nb n nc) (params : π)
    (B : Tensor nb n nc) (biases : Option (ColT nb nc))
    (M : Option (MModule μ nb n nc)) (mparams : μ)
    (options : SolveOptions) : Except SolveError (Tensor nb n nc) :=
  let config := set_default_option
    { max_niter := some n, verbose := some false, min_eps := some (mkRat 1 1000000) }
    options
  if !A.is_symmetric then .error .cgNotSymmetric
  else
    let precond : Tensor nb n nc → Tensor nb n nc :=
      match A.precond with
      | some pr => fun X => pr X params biases M mparams
      | none => fun X => X
    let Aa : Tensor nb n nc → Tensor nb n nc :=
      match biases with
      | some bs =>
        match M with
        | some m => fun X => A.forward X params - m.forward X mparams * bcast bs
        | none => fun X => A.forward X params - X * bcast bs
      | none => fun X => A.forward X params
    let Beff := Aa B
    let Aeff : Tensor nb n nc → Tensor nb n nc := fun X => Aa (Aa X)
    let Peff : Tensor nb n nc → Tensor nb n nc := fun X => precond (precond X)
    let min_eps : ℚ := config.min_eps.getD (mkRat 1 1000000)
    let max_niter : ℕ := config.max_niter.getD n
    let X0 : Tensor nb n nc := 0
    if allcloseZero Beff then .ok X0
    else
      let R := Beff - Aeff X0
      let P := Peff R
      let Rs_old := _dot R P
      .ok (cgLoop Aeff Peff min_eps max_niter X0 R P Rs_old)

/-- `conjgrad` instrumented with the executed CG iteration count (same
control flow, built on `cgLoopIters`); the zero-right-hand-side shortcut
reports `0` iterations. -/
def conjgradIters {π μ : Type} {nb n nc : ℕ} (A : AModule π μ nb n nc)
    (params : π) (B : Tensor nb n nc) (biases : Option (ColT nb nc))
    (M : Option (MModule μ nb n nc)) (mparams : μ)
    (options : SolveOptions) : Except SolveError (Tensor nb n nc × ℕ) :=
  let config := set_default_option
    { max_niter := some n, verbose := some false, min_eps := some (mkRat 1 1000000) }
    options
  if !A.is_symmetric then .error .cgNotSymmetric
  else
    let precond : Tensor nb n nc → Tensor nb n nc :=
      match A.precond with
      | some pr => fun X => pr X params biases M mparams
      | none => fun X => X
    let Aa : Tensor nb n nc → Tensor nb n nc :=
      match biases with
      | some bs =>
        match M with
        | some m => fun X => A.forward X params - m.forward X mparams * bcast bs
        | none => fun X => A.forward X params - X * bcast bs
      | none => fun X => A.forward X params
    let Beff := Aa B
    let Aeff : Tensor nb n nc → Tensor nb n nc := fun X => Aa (Aa X)
    let Peff : Tensor nb n nc → Tensor nb n nc := fun X => precond (precond X)
    let min_eps : ℚ := config.min_eps.getD (mkRat 1 1000000)
    let max_niter : ℕ := config.max_niter.getD n
    let X0 : Tensor nb n nc := 0
    if allcloseZero Beff then .ok (X0, 0)
    else
      let R := Beff - Aeff X0
      let P := Peff R
      let Rs_old := _dot R P
      .ok (cgLoopIters Aeff Peff min_eps max_niter X0 R P Rs_old)

/-- The shifted operator of §4.1, written from the spec's words for
comparison with the local `Aa` inside `conjgrad`:
`Aa(X) = A(X, params)` when `bias` is absent, else
`Aa(X) = A(X, params) − bias⊙M(X, mparams)`, with `M` defaulting to the
identity when absent. -/
def shiftedOp {π μ : Type} {nb n nc : ℕ} (A : AModule π μ nb n nc) (params : π)
    (biases : Option (ColT nb nc)) (M : Option (MModule μ nb n nc))
    (mparams : μ) : Tensor nb n nc → Tensor nb n nc :=
  match biases with
  | some bs =>
    match M with
    | some m => fun X => A.forward X params - m.forward X mparams * bcast bs
    | none => fun X => A.forward X params - X * bcast bs
  | none => fun X => A.forward X params

/-- The single (undoubled) preconditioner: the operator's registered
preconditioner applied with the call's parameters and bias data, or the
identity when none is registered. -/
def precondOf {π μ : Type} {nb n nc : ℕ} (A : AModule π μ nb n nc) (params : π)
    (biases : Option (ColT nb nc)) (M : Option (MModule μ nb n nc))
    (mparams : μ) : Tensor nb n nc → Tensor nb n nc :=
  match A.precond with
  | some pr => fun X => pr X params biases M mparams
  | none => fun X => X

/-- The core CG routine of §4.2, written from the spec's words: takes the
already-transformed effective operator, preconditioner and right-hand side,
applies the zero-right-hand-side shortcut, initializes
`X₀ = 0`, `R₀ = Beff − Aeff(X₀)`, `P₀ = Peff(R₀)`, `ρ₀ = dot(R₀, P₀)`, and
runs the CG loop. -/
def runCG {nb n nc : ℕ} (Aeff Peff : Tensor nb n nc → Tensor nb n nc)
    (Beff : Tensor nb n nc) (min_eps : ℚ) (max_niter : ℕ) : Tensor nb n nc :=
  if allcloseZero Beff then 0
  else
    let R := Beff - Aeff 0
    let P := Peff R
    cgLoop Aeff Peff min_eps max_niter 0 R P (_dot R P)

/-- The context saved on `ctx` by `solve_torchfcn.forward` for the backward
pass: `ctx.A`, `ctx.M`, `ctx.biases`, `ctx.x`, `ctx.params`, `ctx.mparams`
and `ctx.bck_config`. -/
structure Ctx (π μ : Type) (nb n nc : ℕ) : Type where
  A : AModule π μ nb n nc
  M : Option (MModule μ nb n nc)
  biases : Option (ColT nb nc)
  x : Tensor nb n nc
  params : π
  mparams : μ
  bck_config : SolveOptions

/-- `solve_torchfcn.forward`: merges the method default into both option
dicts, validates `A.is_symmetric` and squareness of `A.shape`, dispatches on
the lower-cased method name (only `"conjgrad"` is known), and returns the
solution together with the saved context. -/
def solve_torchfcn_forward {π μ : Type} {nb n nc : ℕ} (A : AModule π μ nb n nc)
    (B : Tensor nb n nc) (biases : Option (ColT nb nc))
    (M : Option (MModule μ nb n nc))
    (fwd_options bck_options : SolveOptions) (params : π) (mparams : μ) :
    Except SolveError (Tensor nb n nc × Ctx π μ nb n nc) :=
  let config := set_default_option { method := some "conjgrad" } fwd_options
  let bck_config := set_default_option { method := some "conjgrad" } bck_options
  if !A.is_symmetric then .error .notSymmetric
  else if A.shape.1 ≠ A.shape.2 then .error .notSquare
  else
    match config.method with
    | none => .error .keyError
    | some mth =>
      if lowerStr mth = "conjgrad" then
        match conjgrad A params B biases M mparams config with
        | .error e => .error e
        | .ok x => .ok (x, ⟨A, M, biases, x, params, mparams, bck_config⟩)
      else .error (.unknownMethod mth)

/-- The public `solve(A, params, B, biases, M, mparams, fwd_options,
bck_options)` entry point: forces `M = None` when `biases is None`, then
invokes the autograd function; its value is the solution tensor. -/
def solve {π μ : Type} {nb n nc : ℕ} (A : AModule π μ nb n nc) (params : π)
    (B : Tensor nb n nc) (biases : Option (ColT nb nc))
    (M : Option (MModule μ nb n nc)) (mparams : μ)
    (fwd_options bck_options : SolveOptions) :
    Except SolveError (Tensor nb n nc) :=
  let M := if biases.isNone then none else M
  (solve_torchfcn_forward A B biases M fwd_options bck_options
    params mparams).map Prod.fst

/-- `(v * Mx).sum(dim=1)`: reduction over the middle dimension without
`keepdim`, producing a `(nbatch, ncols)` tensor. -/
def sum1 {nb n nc : ℕ} (T : Tensor nb n nc) : ColT nb nc :=
  fun i k => ∑ j, T i j k

/-- The tuple of gradients produced by `solve_torchfcn.backward` (the
leading `None`s for non-differentiable arguments are dropped): `grad_B`,
optional `grad_biases`, `grad_params` (of abstract gradient type `γπ`),
and `grad_mparams` (`none` embeds the empty tuple returned when `M` is
absent). -/
structure BackwardGrads (γπ γμ : Type) (nb n nc : ℕ) : Type where
  grad_B : Tensor nb n nc
  grad_biases : Option (ColT nb nc)
  grad_params : γπ
  grad_mparams : Option γμ

/-- `solve_torchfcn.backward(ctx, grad_x)`.  The reverse-mode engine is an
external collaborator: `vjpA f p v` stands for
`torch.autograd.grad(f(p), p, grad_outputs=v)` (the vector-Jacobian product
of `f` at `p` seeded by `v`), and likewise `vjpM` for the `mparams` side.
The body: solve `Aa(v) = grad_x` recursively with the backward options for
both option slots; `grad_B = v`; if biases were given,
`grad_biases = (v * Mx).sum(dim=1)` with `Mx = M(x, mparams)` or `x`;
`grad_params` is the VJP of `params ↦ -A(x, params)` seeded by `v`; if `M`
is present, `grad_mparams` is the VJP of
`mparams ↦ M(x * biases.unsqueeze(1), mparams)` seeded by `v` (when `M` is
present but `biases` is `None` the source would fail on
`ctx.biases.unsqueeze(1)`, embedded as the `biasesNone` error). -/
def solve_torchfcn_backward {π μ γπ γμ : Type} {nb n nc : ℕ}
    (vjpA : (π → Tensor nb n nc) → π → Tensor nb n nc → γπ)
    (vjpM : (μ → Tensor nb n nc) → μ → Tensor nb n nc → γμ)
    (ctx : Ctx π μ nb n nc) (grad_x : Tensor nb n nc) :
    Except SolveError (BackwardGrads γπ γμ nb n nc) :=
  match solve ctx.A ctx.params grad_x ctx.biases ctx.M ctx.mparams
      ctx.bck_config ctx.bck_config with
  | .error e => .error e
  | .ok v =>
    let grad_B := v
    let grad_biases : Option (ColT nb nc) :=
      match ctx.biases with
      | none => none
      | some _ =>
        let Mx := match ctx.M with
          | none => ctx.x
          | some m => m.forward ctx.x ctx.mparams
        some (sum1 (v * Mx))
    let grad_params := vjpA (fun ps => -(ctx.A.forward ctx.x ps)) ctx.params v
    match ctx.M with
    | none => .ok ⟨grad_B, grad_biases, grad_params, none⟩
    | some m =>
      match ctx.biases with
      | none => .error .biasesNone
      | some bs =>
        let lmbdax := ctx.x * bcast bs
        .ok ⟨grad_B, grad_biases, grad_params,
          some (vjpM (fun mp => m.forward lmbdax mp) ctx.mparams v)⟩

/-! Helper lemmas and concrete fixtures. -/

/-- A trivial symmetric square 1×1 identity operator. -/
def identOp : AModule Unit Unit 1 1 1 where
  forward := fun X _ => X
  is_symmetric := true
  shape := (1, 1)

/-- `identOp` with its symmetry flag cleared. -/
def asymOp : AModule Unit Unit 1 1 1 where
  forward := fun X _ => X
  is_symmetric := false
  shape := (1, 1)

/-- `identOp` with a non-square declared shape. -/
def nonsqOp : AModule Unit Unit 1 1 1 where
  forward := fun X _ => X
  is_symmetric := true
  shape := (1, 2)

/-- A trivial identity bias-side operator. -/
def identM : MModule Unit 1 1 1 where
  forward := fun X _ => X

/-- A trivial vector-Jacobian-product oracle for `Unit` parameters. -/
def vjpU : (Unit → Tensor 1 1 1) → Unit → Tensor 1 1 1 → Unit :=
  fun _ _ _ => ()

/-! ### C8: `_safe_divide` clamps small denominators -/

/-- The clamp constant of `_safe_divide` is exactly `1e-10`. -/
theorem mkRat_eps_eq : (mkRat 1 10000000000 : ℚ) = 1/10000000000 := by
  rw [Rat.mkRat_eq_divInt, Rat.divInt_eq_div]
  norm_num

/-- C8: for every pair of tensors, `_safe_divide` divides `A` elementwise by
a copy of `B` whose entries of absolute value below `1e-10` were replaced by
`1e-10` (the clamp constant equals `1/10^10` exactly); the divisor actually
used is never zero (so the operation never fails), and entries of `B` with
`|B| ≥ 1e-10` are divided by exactly. -/
theorem safe_divide_clamps {nb nc : ℕ} (A B : ColT nb nc)
    (i : Fin nb) (k : Fin nc) :
    _safe_divide A B i k
      = A i k
        / (if |B i k| < mkRat 1 10000000000 then mkRat 1 10000000000
           else B i k)
    ∧ (mkRat 1 10000000000 : ℚ) = 1/10000000000
    ∧ (if |B i k| < mkRat 1 10000000000 then (mkRat 1 10000000000 : ℚ)
       else B i k) ≠ 0
    ∧ ((1:ℚ)/10000000000 ≤ |B i k| → _safe_divide A B i k = A i k / B i k) := by
  refine ⟨rfl, mkRat_eps_eq, ?_, ?_⟩
  · split
    · rw [mkRat_eps_eq]
      norm_num
    · rename_i hlt
      intro h0
      rw [h0, mkRat_eps_eq] at hlt
      norm_num at hlt
  · intro h
    unfold _safe_divide
    rw [if_neg (not_lt.mpr (mkRat_eps_eq ▸ h))]

/-- Witness for C8 at `A = 6`, `B = 3` (a denominator above the clamp
threshold, divided by exactly). -/
theorem safe_divide_clamps_witness :
    (1:ℚ)/10000000000 ≤ |(fun _ _ => (3:ℚ)) (0 : Fin 1) (0 : Fin 1)|
    ∧ _safe_divide (fun _ _ => (6:ℚ)) (fun _ _ => (3:ℚ)) (0 : Fin 1) (0 : Fin 1)
      = (fun _ _ => (6:ℚ)) (0 : Fin 1) (0 : Fin 1)
        / (fun _ _ => (3:ℚ)) (0 : Fin 1) (0 : Fin 1) := by
  constructor
  · norm_num
  · exact (safe_divide_clamps (fun _ _ => (6:ℚ)) (fun _ _ => (3:ℚ)) 0 0).2.2.2
      (by norm_num)

/-! ### C9: a bias-free solve never applies `M` -/

/-- C9: calling `solve` with `M` supplied but `biases = none` returns exactly
the same result as calling it with both absent: the wrapper forces
`M := none` whenever `biases` is `none`. -/
theorem solve_biasfree_ignores_M {π μ : Type} {nb n nc : ℕ}
    (A : AModule π μ nb n nc) (params : π) (B : Tensor nb n nc)
    (m : MModule μ nb n nc) (mparams : μ) (fwd bck : SolveOptions) :
    solve A params B none (some m) mparams fwd bck
      = solve A params B none none mparams fwd bck := rfl

/-! ### C5: validation and method dispatch fail fast -/

/-- C5: a non-symmetric operator or a non-square declared shape makes `solve`
fail with a structural error before any iteration (the result is the same
error for every right-hand side), and an unrecognized method name fails with
the configuration error `unknownMethod`; no `.ok` result is produced in any
of these cases. -/
theorem solve_validates {π μ : Type} {nb n nc : ℕ} (A : AModule π μ nb n nc)
    (params : π) (B : Tensor nb n nc) (biases : Option (ColT nb nc))
    (M : Option (MModule μ nb n nc)) (mparams : μ) (fwd bck : SolveOptions) :
    (A.is_symmetric = false →
      solve A params B biases M mparams fwd bck = .error .notSymmetric
        ∧ SolveError.notSymmetric.isStructural = true)
    ∧ (A.is_symmetric = true → A.shape.1 ≠ A.shape.2 →
      solve A params B biases M mparams fwd bck = .error .notSquare
        ∧ SolveError.notSquare.isStructural = true)
    ∧ (∀ mth, A.is_symmetric = true → A.shape.1 = A.shape.2 →
        fwd.method = some mth → lowerStr mth ≠ "conjgrad" →
      solve A params B biases M mparams fwd bck
        = .error (.unknownMethod mth)) := by
  refine ⟨?_, ?_, ?_⟩
  · intro h
    refine ⟨?_, rfl⟩
    simp [solve, solve_torchfcn_forward, h, Except.map]
  · intro h hsq
    refine ⟨?_, rfl⟩
    simp [solve, solve_torchfcn_forward, h, hsq, Except.map]
  · intro mth h hsq hm hne
    simp [solve, solve_torchfcn_forward, set_default_option, h, hsq, hm, hne,
      Except.map]

/-- Witness for C5: a non-symmetric operator, a non-square operator, and an
unknown method name each produce the specified error. -/
theorem solve_validates_witness :
    (asymOp.is_symmetric = false
      ∧ solve asymOp () 0 none none () {} {} = .error .notSymmetric)
    ∧ (nonsqOp.is_symmetric = true ∧ nonsqOp.shape.1 ≠ nonsqOp.shape.2
      ∧ solve nonsqOp () 0 none none () {} {} = .error .notSquare)
    ∧ (lowerStr "foo" ≠ "conjgrad"
      ∧ solve identOp () 0 none none () { method := some "foo" } {}
          = .error (.unknownMethod "foo")) := by
  refine ⟨⟨rfl, ?_⟩, ⟨rfl, by decide, ?_⟩, ⟨by decide, ?_⟩⟩
  · exact ((solve_validates asymOp () 0 none none () {} {}).1 rfl).1
  · exact (((solve_validates nonsqOp () 0 none none () {} {}).2.1 rfl)
      (by decide)).1
  · exact (solve_validates identOp () 0 none none ()
      { method := some "foo" } {}).2.2 "foo" rfl rfl rfl (by decide)

/-! ### C1: dispatch builds the shifted operator and doubles it -/

/-- For a symmetric operator, `conjgrad` is exactly `runCG` on the doubled
shifted operator, doubled preconditioner and transformed right-hand side,
with the option-derived tolerances. -/
theorem conjgrad_ok_runCG {π μ : Type} {nb n nc : ℕ} (A : AModule π μ nb n nc)
    (params : π) (B : Tensor nb n nc) (biases : Option (ColT nb nc))
    (M : Option (MModule μ nb n nc)) (mparams : μ) (opts : SolveOptions)
    (h : A.is_symmetric = true) :
    conjgrad A params B biases M mparams opts
      = .ok (runCG
          (fun X => shiftedOp A params biases M mparams
            (shiftedOp A params biases M mparams X))
          (fun X => precondOf A params biases M mparams
            (precondOf A params biases M mparams X))
          (shiftedOp A params biases M mparams B)
          (opts.min_eps.getD (mkRat 1 1000000)) (opts.max_niter.getD n)) := by
  obtain ⟨mo, mn, me, mv⟩ := opts
  unfold conjgrad runCG shiftedOp precondOf set_default_option
  rw [h]
  cases me <;> cases mn <;>
    simp only [Bool.not_true, Bool.false_eq_true, if_false,
      Option.some_orElse, Option.none_orElse, Option.getD_some,
      Option.getD_none] <;>
  · split <;> rfl

/-- For a solve call that passes validation with a conjugate-gradient method
name, the dispatched computation is `runCG` of the doubled pieces. -/
theorem forward_ok_runCG {π μ : Type} {nb n nc : ℕ} (A : AModule π μ nb n nc)
    (B : Tensor nb n nc) (biases : Option (ColT nb nc))
    (M : Option (MModule μ nb n nc)) (fwd bck : SolveOptions)
    (params : π) (mparams : μ)
    (h_sym : A.is_symmetric = true) (h_sq : A.shape.1 = A.shape.2)
    (h_m : ∀ s, fwd.method = some s → lowerStr s = "conjgrad") :
    (solve_torchfcn_forward A B biases M fwd bck params mparams).map Prod.fst
      = .ok (runCG
          (fun X => shiftedOp A params biases M mparams
            (shiftedOp A params biases M mparams X))
          (fun X => precondOf A params biases M mparams
            (precondOf A params biases M mparams X))
          (shiftedOp A params biases M mparams B)
          (fwd.min_eps.getD (mkRat 1 1000000)) (fwd.max_niter.getD n)) := by
  have hcg := conjgrad_ok_runCG A params B biases M mparams
    (set_default_option { method := some "conjgrad" } fwd) h_sym
  have hfields :
      ((set_default_option { method := some "conjgrad" } fwd).min_eps
          = fwd.min_eps)
      ∧ ((set_default_option { method := some "conjgrad" } fwd).max_niter
          = fwd.max_niter) := by
    obtain ⟨mo, mn, me, mv⟩ := fwd
    constructor <;> cases me <;> cases mn <;> rfl
  rw [hfields.1, hfields.2] at hcg
  unfold solve_torchfcn_forward
  rw [h_sym]
  simp only [Bool.not_true, Bool.false_eq_true, if_false, h_sq, ne_eq,
    not_true_eq_false, ite_false]
  cases hmo : fwd.method with
  | none =>
    have hmth : (set_default_option { method := some "conjgrad" } fwd).method
        = some "conjgrad" := by
      simp [set_default_option, hmo]
    have hlow : lowerStr "conjgrad" = "conjgrad" := by decide
    simp only [hmth, hlow, if_true, hcg, Except.map]
  | some s =>
    have hmth : (set_default_option { method := some "conjgrad" } fwd).method
        = some s := by
      simp [set_default_option, hmo]
    simp only [hmth, h_m s hmo, if_true, hcg, Except.map]

/-- C1: every `solve` call that reaches the conjugate-gradient method (the
operator is symmetric and square, and the method name lower-cases to the
supported `"conjgrad"`) computes `runCG` applied to the squared shifted
operator `Aeff = Aa ∘ Aa`, the transformed right-hand side `Beff = Aa B`,
and the doubled preconditioner `Peff = P ∘ P`, where `Aa` is the shifted
operator (`M` having been forced absent when `biases` is absent) and `P`
is the registered preconditioner or the identity. -/
theorem solve_dispatches_doubled_cg {π μ : Type} {nb n nc : ℕ}
    (A : AModule π μ nb n nc) (params : π) (B : Tensor nb n nc)
    (biases : Option (ColT nb nc)) (M : Option (MModule μ nb n nc))
    (mparams : μ) (fwd bck : SolveOptions)
    (h_sym : A.is_symmetric = true) (h_sq : A.shape.1 = A.shape.2)
    (h_m : ∀ s, fwd.method = some s → lowerStr s = "conjgrad") :
    solve A params B biases M mparams fwd bck
      = (let Mf := if biases.isNone then none else M
         let Aa := shiftedOp A params biases Mf mparams
         let Pc := precondOf A params biases Mf mparams
         .ok (runCG (fun X => Aa (Aa X)) (fun X => Pc (Pc X)) (Aa B)
          (fwd.min_eps.getD (mkRat 1 1000000)) (fwd.max_niter.getD n))) := by
  unfold solve
  exact forward_ok_runCG A B biases (if biases.isNone then none else M)
    fwd bck params mparams h_sym h_sq h_m

/-- Witness for C1 at the 1×1 identity operator with a bias and the default
(empty) option dictionaries. -/
theorem solve_dispatches_doubled_cg_witness :
    identOp.is_symmetric = true ∧ identOp.shape.1 = identOp.shape.2
    ∧ solve identOp () (fun _ _ _ => (7:ℚ)) (some fun _ _ => (2:ℚ)) none ()
        {} {}
      = (let Mf := if (some fun _ _ => (2:ℚ) : Option (ColT 1 1)).isNone
            then none else none
         let Aa := shiftedOp identOp () (some fun _ _ => (2:ℚ)) Mf ()
         let Pc := precondOf identOp () (some fun _ _ => (2:ℚ)) Mf ()
         .ok (runCG (fun X => Aa (Aa X)) (fun X => Pc (Pc X))
          (Aa fun _ _ _ => (7:ℚ))
          ((({} : SolveOptions)).min_eps.getD (mkRat 1 1000000))
          ((({} : SolveOptions)).max_niter.getD 1))) := by
  refine ⟨rfl, rfl, ?_⟩
  exact solve_dispatches_doubled_cg identOp () (fun _ _ _ => (7:ℚ))
    (some fun _ _ => (2:ℚ)) none () {} {} rfl rfl
    (fun s h => nomatch h)

/-! ### C4: the exact shape of one CG iteration -/

/-- C4: starting state and exact iteration body of the CG loop.  When the
right-hand side is not numerically zero and the effective operator sends `0`
to `0` (as every linear operator does), the loop starts from `X₀ = 0`,
`R₀ = Beff`, `Z₀ = Peff R₀`, `ρ₀ = dot R₀ Z₀`; each iteration computes
`Q = Aeff P`, `α = safe_divide(ρ, dot(P, Q))`, updates `X` and `R`,
re-preconditions, takes `ρ_new = dot(R, Z)`, stops returning the
just-updated `X` when the maximum absolute value of `ρ_new` over the whole
batch is below `min_eps`, and otherwise continues with
`P ← Z + safe_divide(ρ_new, ρ)·P`, `ρ ← ρ_new`; `dot` reduces over the
middle (size-`n`) dimension keeping batch and columns. -/
theorem cg_iteration_exact {nb n nc : ℕ}
    (Aeff Peff : Tensor nb n nc → Tensor nb n nc) (Beff : Tensor nb n nc)
    (min_eps : ℚ) (max_niter niter : ℕ) (X R P : Tensor nb n nc)
    (Rs_old : ColT nb nc)
    (hA0 : Aeff 0 = 0) (hB : allcloseZero Beff = false) :
    (runCG Aeff Peff Beff min_eps max_niter
      = cgLoop Aeff Peff min_eps max_niter 0 Beff (Peff Beff)
          (_dot Beff (Peff Beff)))
    ∧ (cgLoop Aeff Peff min_eps (niter + 1) X R P Rs_old =
        let Q := Aeff P
        let alpha := _safe_divide Rs_old (_dot P Q)
        let X' := X + cmul alpha P
        let R' := R - cmul alpha Q
        let Z := Peff R'
        let Rs_new := _dot R' Z
        if maxAbs Rs_new < min_eps then X'
        else cgLoop Aeff Peff min_eps niter X' R'
          (Z + cmul (_safe_divide Rs_new Rs_old) P) Rs_new)
    ∧ (∀ (C D : Tensor nb n nc) (i : Fin nb) (k : Fin nc),
        _dot C D i k = ∑ j, C i j k * D i j k) := by
  refine ⟨?_, rfl, fun C D i k => rfl⟩
  unfold runCG
  rw [hA0]
  simp [hB, sub_zero]

/-- Witness for C4 at the identity effective operator and a nonzero
right-hand side. -/
theorem cg_iteration_exact_witness :
    ((fun X : Tensor 1 1 1 => X) 0 = 0)
    ∧ (allcloseZero ((fun _ _ _ => (1:ℚ)) : Tensor 1 1 1) = false)
    ∧ (runCG (fun X : Tensor 1 1 1 => X) (fun X => X) (fun _ _ _ => (1:ℚ))
          (1/1000000) 1
        = cgLoop (fun X => X) (fun X => X) (1/1000000) 1 0
            (fun _ _ _ => (1:ℚ)) ((fun X : Tensor 1 1 1 => X) fun _ _ _ => 1)
            (_dot (fun _ _ _ => 1)
              ((fun X : Tensor 1 1 1 => X) fun _ _ _ => 1))) := by
  refine ⟨rfl, by decide, ?_⟩
  exact (cg_iteration_exact (fun X => X) (fun X => X) (fun _ _ _ => 1)
    (1/1000000) 1 0 0 0 0 0 rfl (by decide)).1

/-! ### C6: non-convergence is silent -/

/-- C6: for a symmetric operator `conjgrad` always returns an `.ok` result —
exhausting `max_niter` raises nothing and attaches no convergence status —
and with `max_niter = 0` the returned tensor is the initial all-zero guess
(whether or not the right-hand side is zero), with the instrumented variant
reporting zero executed iterations. -/
theorem cg_exhaustion_returns_last {π μ : Type} {nb n nc : ℕ}
    (A : AModule π μ nb n nc) (params : π) (B : Tensor nb n nc)
    (biases : Option (ColT nb nc)) (M : Option (MModule μ nb n nc))
    (mparams : μ) (opts : SolveOptions)
    (h_sym : A.is_symmetric = true) :
    (∃ X, conjgrad A params B biases M mparams opts = .ok X)
    ∧ (opts.max_niter = some 0 →
        conjgrad A params B biases M mparams opts = .ok 0
        ∧ conjgradIters A params B biases M mparams opts = .ok (0, 0)) := by
  constructor
  · exact ⟨_, conjgrad_ok_runCG A params B biases M mparams opts h_sym⟩
  · intro h0
    obtain ⟨mo, mn, me, mv⟩ := opts
    simp only at h0
    subst h0
    constructor
    · unfold conjgrad set_default_option
      rw [h_sym]
      simp only [Bool.not_true, Bool.false_eq_true, if_false,
        Option.some_orElse, Option.getD_some]
      split <;> rfl
    · unfold conjgradIters set_default_option
      rw [h_sym]
      simp only [Bool.not_true, Bool.false_eq_true, if_false,
        Option.some_orElse, Option.getD_some]
      split <;> rfl

/-- Witness for C6: the 1×1 identity operator, a nonzero right-hand side and
`max_niter = 0` yield the unchanged zero tensor and a zero iteration
count. -/
theorem cg_exhaustion_returns_last_witness :
    identOp.is_symmetric = true
    ∧ allcloseZero ((fun _ _ _ => (3:ℚ)) : Tensor 1 1 1) = false
    ∧ conjgrad identOp () (fun _ _ _ => (3:ℚ)) none none ()
        { max_niter := some 0 } = .ok 0
    ∧ conjgradIters identOp () (fun _ _ _ => (3:ℚ)) none none ()
        { max_niter := some 0 } = .ok (0, 0) := by
  have h := (cg_exhaustion_returns_last identOp () (fun _ _ _ => (3:ℚ))
    none none () { max_niter := some 0 } rfl).2 rfl
  exact ⟨rfl, by decide, h.1, h.2⟩

/-! ### C7 and C10: the zero-right-hand-side shortcut -/

/-- The allclose tolerance constant is exactly `1e-8`. -/
theorem mkRat_atol_eq : (mkRat 1 100000000 : ℚ) = 1/100000000 := by
  rw [Rat.mkRat_eq_divInt, Rat.divInt_eq_div]
  norm_num

/-- The all-zero tensor is numerically all-zero. -/
theorem allcloseZero_zero {nb n nc : ℕ} :
    allcloseZero (0 : Tensor nb n nc) = true := by
  simp only [allcloseZero, List.all_eq_true, decide_eq_true_eq]
  intro i _ j _ k _
  simp only [Pi.zero_apply, abs_zero, mkRat_atol_eq]
  norm_num

/-- An operator pair that maps zero to zero gives a shifted operator that
maps zero to zero. -/
theorem shiftedOp_zero {π μ : Type} {nb n nc : ℕ} (A : AModule π μ nb n nc)
    (params : π) (biases : Option (ColT nb nc))
    (M : Option (MModule μ nb n nc)) (mparams : μ)
    (hA0 : A.forward 0 params = 0)
    (hM0 : ∀ m, M = some m → m.forward 0 mparams = 0) :
    shiftedOp A params biases M mparams 0 = 0 := by
  cases biases with
  | none => simpa [shiftedOp] using hA0
  | some bs =>
    cases M with
    | none =>
      simp [shiftedOp, hA0]
    | some m =>
      simp [shiftedOp, hA0, hM0 m rfl]

/-- The instrumented conjugate-gradient entry, factored like
`conjgrad_ok_runCG`: shortcut reporting zero iterations, else the
instrumented loop. -/
def runCGIters {nb n nc : ℕ} (Aeff Peff : Tensor nb n nc → Tensor nb n nc)
    (Beff : Tensor nb n nc) (min_eps : ℚ) (max_niter : ℕ) :
    Tensor nb n nc × ℕ :=
  if allcloseZero Beff then (0, 0)
  else
    let R := Beff - Aeff 0
    let P := Peff R
    cgLoopIters Aeff Peff min_eps max_niter 0 R P (_dot R P)

/-- For a symmetric operator, `conjgradIters` is exactly `runCGIters` on the
doubled pieces. -/
theorem conjgradIters_ok_runCGIters {π μ : Type} {nb n nc : ℕ}
    (A : AModule π μ nb n nc) (params : π) (B : Tensor nb n nc)
    (biases : Option (ColT nb nc)) (M : Option (MModule μ nb n nc))
    (mparams : μ) (opts : SolveOptions)
    (h : A.is_symmetric = true) :
    conjgradIters A params B biases M mparams opts
      = .ok (runCGIters
          (fun X => shiftedOp A params biases M mparams
            (shiftedOp A params biases M mparams X))
          (fun X => precondOf A params biases M mparams
            (precondOf A params biases M mparams X))
          (shiftedOp A params biases M mparams B)
          (opts.min_eps.getD (mkRat 1 1000000)) (opts.max_niter.getD n)) := by
  obtain ⟨mo, mn, me, mv⟩ := opts
  unfold conjgradIters runCGIters shiftedOp precondOf set_default_option
  rw [h]
  cases me <;> cases mn <;>
    simp only [Bool.not_true, Bool.false_eq_true, if_false,
      Option.some_orElse, Option.none_orElse, Option.getD_some,
      Option.getD_none] <;>
  · split <;> rfl

/-- On 1×1×1 tensors `allcloseZero` is the single entry's tolerance test. -/
theorem allcloseZero_eval (T : Tensor 1 1 1) :
    allcloseZero T = decide (|T 0 0 0| ≤ mkRat 1 100000000) := by
  simp [allcloseZero, List.finRange_succ_eq_map]

/-- C10: the zero-right-hand-side shortcut tests the transformed right-hand
side `Aa(B)`, not `B`: whenever `Aa(B)` is numerically all-zero — whatever
`B` itself is — `conjgrad` returns the all-zero tensor and the instrumented
variant reports zero executed CG iterations. -/
theorem shortcut_tests_transformed_rhs {π μ : Type} {nb n nc : ℕ}
    (A : AModule π μ nb n nc) (params : π) (B : Tensor nb n nc)
    (biases : Option (ColT nb nc)) (M : Option (MModule μ nb n nc))
    (mparams : μ) (opts : SolveOptions)
    (h_sym : A.is_symmetric = true)
    (hzero : allcloseZero (shiftedOp A params biases M mparams B) = true) :
    conjgrad A params B biases M mparams opts = .ok 0
    ∧ conjgradIters A params B biases M mparams opts = .ok (0, 0) := by
  constructor
  · rw [conjgrad_ok_runCG A params B biases M mparams opts h_sym]
    unfold runCG
    simp [hzero]
  · rw [conjgradIters_ok_runCGIters A params B biases M mparams opts h_sym]
    unfold runCGIters
    simp [hzero]

/-- Witness for C10: the 1×1 identity operator with bias `1` annihilates
every `B` (`Aa(B) = B - 1·B = 0`); at the nonzero `B = 5` the solver still
shortcuts to zero with zero iterations. -/
theorem shortcut_tests_transformed_rhs_witness :
    allcloseZero ((fun _ _ _ => (5:ℚ)) : Tensor 1 1 1) = false
    ∧ allcloseZero
        (shiftedOp identOp () (some fun _ _ => (1:ℚ)) none ()
          ((fun _ _ _ => (5:ℚ)) : Tensor 1 1 1)) = true
    ∧ conjgrad identOp () ((fun _ _ _ => (5:ℚ)) : Tensor 1 1 1)
        (some fun _ _ => (1:ℚ)) none () {} = .ok 0
    ∧ conjgradIters identOp () ((fun _ _ _ => (5:ℚ)) : Tensor 1 1 1)
        (some fun _ _ => (1:ℚ)) none () {} = .ok (0, 0) := by
  have hz : allcloseZero
      (shiftedOp identOp () (some fun _ _ => (1:ℚ)) none ()
        ((fun _ _ _ => (5:ℚ)) : Tensor 1 1 1)) = true := by
    rw [allcloseZero_eval]
    simp only [shiftedOp, identOp, bcast, Pi.sub_apply, Pi.mul_apply,
      mkRat_atol_eq, decide_eq_true_eq]
    norm_num
  have h := shortcut_tests_transformed_rhs identOp ()
    ((fun _ _ _ => (5:ℚ)) : Tensor 1 1 1) (some fun _ _ => (1:ℚ)) none () {}
    rfl hz
  refine ⟨?_, hz, h.1, h.2⟩
  rw [allcloseZero_eval]
  simp only [mkRat_atol_eq, decide_eq_false_iff_not]
  norm_num

/-- C7: a solve call on an all-zero right-hand side, for any operator pair
sending zero to zero (every linear operator does), returns the all-zero
tensor, and the conjugate-gradient core performs zero iterations. -/
theorem zero_rhs_immediate {π μ : Type} {nb n nc : ℕ}
    (A : AModule π μ nb n nc) (params : π) (biases : Option (ColT nb nc))
    (M : Option (MModule μ nb n nc)) (mparams : μ) (fwd bck : SolveOptions)
    (h_sym : A.is_symmetric = true) (h_sq : A.shape.1 = A.shape.2)
    (h_m : ∀ s, fwd.method = some s → lowerStr s = "conjgrad")
    (hA0 : A.forward 0 params = 0)
    (hM0 : ∀ m, M = some m → m.forward 0 mparams = 0) :
    solve A params (0 : Tensor nb n nc) biases M mparams fwd bck = .ok 0
    ∧ conjgradIters A params (0 : Tensor nb n nc) biases M mparams fwd
        = .ok (0, 0) := by
  constructor
  · unfold solve
    rw [forward_ok_runCG A 0 biases (if biases.isNone then none else M)
      fwd bck params mparams h_sym h_sq h_m]
    have hz : shiftedOp A params biases (if biases.isNone then none else M)
        mparams 0 = 0 := by
      apply shiftedOp_zero A params biases _ mparams hA0
      intro m hm
      cases biases with
      | none => simp at hm
      | some bs =>
        simp only [Option.isNone_some, Bool.false_eq_true, if_false] at hm
        exact hM0 m hm
    unfold runCG
    rw [hz]
    simp [allcloseZero_zero]
  · rw [conjgradIters_ok_runCGIters A params 0 biases M mparams fwd h_sym]
    have hz : shiftedOp A params biases M mparams 0 = 0 :=
      shiftedOp_zero A params biases M mparams hA0 hM0
    unfold runCGIters
    rw [hz]
    simp [allcloseZero_zero]

/-- Witness for C7: the 1×1 identity operator with a bias and the identity
`M`, on the zero right-hand side. -/
theorem zero_rhs_immediate_witness :
    identOp.forward 0 () = 0
    ∧ solve identOp () (0 : Tensor 1 1 1) (some fun _ _ => (2:ℚ))
        (some identM) () {} {} = .ok 0
    ∧ conjgradIters identOp () (0 : Tensor 1 1 1) (some fun _ _ => (2:ℚ))
        (some identM) () {} = .ok (0, 0) := by
  have h := zero_rhs_immediate identOp () (some fun _ _ => (2:ℚ))
    (some identM) () {} {} rfl rfl (fun s hs => nomatch hs) rfl
    (fun m hm => by cases hm; rfl)
  exact ⟨rfl, h.1, h.2⟩

/-! ### C2 and C3: the backward pass -/

/-- A `solve` call whose transformed right-hand side is numerically zero
returns the zero tensor (helper for building concrete adjoint solves). -/
theorem solve_shortcut_ok {π μ : Type} {nb n nc : ℕ} (A : AModule π μ nb n nc)
    (params : π) (B : Tensor nb n nc) (biases : Option (ColT nb nc))
    (M : Option (MModule μ nb n nc)) (mparams : μ) (fwd bck : SolveOptions)
    (h_sym : A.is_symmetric = true) (h_sq : A.shape.1 = A.shape.2)
    (h_m : ∀ s, fwd.method = some s → lowerStr s = "conjgrad")
    (hzero : allcloseZero (shiftedOp A params biases
        (if biases.isNone then none else M) mparams B) = true) :
    solve A params B biases M mparams fwd bck = .ok 0 := by
  unfold solve
  rw [forward_ok_runCG A B biases (if biases.isNone then none else M)
    fwd bck params mparams h_sym h_sq h_m]
  unfold runCG
  rw [if_pos hzero]

/-- C2: in every backward call, the adjoint vector `v` is the result of
recursively solving the same system (`ctx.A`, `ctx.biases`, `ctx.M`,
`ctx.params`, `ctx.mparams`) with the incoming gradient `g` as right-hand
side and `ctx.bck_config` for both option slots; the gradient w.r.t. `B`
returned is exactly that `v`; and the `bck_config` stored by any forward
call is the method-defaulted backward option dict alone (the forward
options are not retained in it). -/
theorem backward_adjoint_recursive_solve {π μ γπ γμ : Type} {nb n nc : ℕ}
    (vjpA : (π → Tensor nb n nc) → π → Tensor nb n nc → γπ)
    (vjpM : (μ → Tensor nb n nc) → μ → Tensor nb n nc → γμ)
    (ctx : Ctx π μ nb n nc) (g v : Tensor nb n nc)
    (hv : solve ctx.A ctx.params g ctx.biases ctx.M ctx.mparams
        ctx.bck_config ctx.bck_config = .ok v)
    (hMb : ctx.M.isSome = true → ctx.biases.isSome = true)
    (A' : AModule π μ nb n nc) (B' : Tensor nb n nc)
    (biases' : Option (ColT nb nc)) (M' : Option (MModule μ nb n nc))
    (fwd' bck' : SolveOptions) (params' : π) (mparams' : μ)
    (x' : Tensor nb n nc) (ctx' : Ctx π μ nb n nc)
    (hfwd : solve_torchfcn_forward A' B' biases' M' fwd' bck' params' mparams'
        = .ok (x', ctx')) :
    (∃ grads, solve_torchfcn_backward vjpA vjpM ctx g = .ok grads
      ∧ grads.grad_B = v)
    ∧ ctx'.bck_config
        = set_default_option { method := some "conjgrad" } bck' := by
  constructor
  · unfold solve_torchfcn_backward
    rw [hv]
    cases hM : ctx.M with
    | none => exact ⟨_, rfl, rfl⟩
    | some m =>
      have hb := hMb (by rw [hM]; rfl)
      cases hb2 : ctx.biases with
      | none =>
        rw [hb2] at hb
        simp at hb
      | some bs => exact ⟨_, rfl, rfl⟩
  · unfold solve_torchfcn_forward at hfwd
    split at hfwd
    · simp at hfwd
    · split at hfwd
      · simp at hfwd
      · cases hmth : (set_default_option { method := some "conjgrad" }
            fwd').method with
        | none => simp [hmth] at hfwd
        | some mth =>
          simp only [hmth] at hfwd
          split at hfwd
          · cases hcg : conjgrad A' params' B' biases' M'
                mparams' (set_default_option { method := some "conjgrad" }
                  fwd') with
            | error e => simp [hcg] at hfwd
            | ok x =>
              simp only [hcg] at hfwd
              injection hfwd with h1
              injection h1 with hx hctx
              rw [← hctx]
          · simp at hfwd

/-- Witness for C2: a backward call on the trivial 1×1 identity context with
zero incoming gradient, and a concrete forward call with empty backward
options. -/
theorem backward_adjoint_recursive_solve_witness :
    (∃ grads, solve_torchfcn_backward vjpU vjpU
        (⟨identOp, none, none, 0, (), (), {}⟩ : Ctx Unit Unit 1 1 1) 0
        = .ok grads
      ∧ grads.grad_B = 0)
    ∧ (⟨identOp, none, none, 0, (), (),
          { method := some "conjgrad" }⟩ : Ctx Unit Unit 1 1 1).bck_config
        = set_default_option { method := some "conjgrad" } {} := by
  have hv : solve identOp () (0 : Tensor 1 1 1) none none () {} {} = .ok 0 := by
    apply solve_shortcut_ok identOp () 0 none none () {} {} rfl rfl
      (fun s hs => nomatch hs)
    show allcloseZero (0 : Tensor 1 1 1) = true
    exact allcloseZero_zero
  exact backward_adjoint_recursive_solve vjpU vjpU
    ⟨identOp, none, none, 0, (), (), {}⟩ 0 0 hv (fun h => nomatch h)
    identOp 0 none none {} {} () () 0
    ⟨identOp, none, none, 0, (), (), { method := some "conjgrad" }⟩ rfl

/-- C3: in every backward call, the bias gradient is produced exactly when a
bias was stored and equals `(v * Mx).sum(dim=1)` with `Mx = M(x, mparams)`
when `M` is present and `Mx = x` otherwise; the parameter gradients are the
vector-Jacobian product of `params ↦ -A(x, params)` seeded by `v`; and the
`mparams` gradients are produced exactly when `M` is present and equal the
vector-Jacobian product of `mparams ↦ M(x ⊙ bias, mparams)` seeded by
`v`. -/
theorem backward_gradient_formulas {π μ γπ γμ : Type} {nb n nc : ℕ}
    (vjpA : (π → Tensor nb n nc) → π → Tensor nb n nc → γπ)
    (vjpM : (μ → Tensor nb n nc) → μ → Tensor nb n nc → γμ)
    (ctx : Ctx π μ nb n nc) (g v : Tensor nb n nc)
    (hv : solve ctx.A ctx.params g ctx.biases ctx.M ctx.mparams
        ctx.bck_config ctx.bck_config = .ok v)
    (hMb : ctx.M.isSome = true → ctx.biases.isSome = true) :
    ∃ grads, solve_torchfcn_backward vjpA vjpM ctx g = .ok grads
      ∧ grads.grad_biases
          = (match ctx.biases with
             | none => none
             | some _ => some (sum1 (v * (match ctx.M with
                 | none => ctx.x
                 | some m => m.forward ctx.x ctx.mparams))))
      ∧ grads.grad_params
          = vjpA (fun ps => -(ctx.A.forward ctx.x ps)) ctx.params v
      ∧ grads.grad_mparams
          = (match ctx.M, ctx.biases with
             | some m, some bs =>
                some (vjpM (fun mp => m.forward (ctx.x * bcast bs) mp)
                  ctx.mparams v)
             | _, _ => none) := by
  unfold solve_torchfcn_backward
  rw [hv]
  cases hM : ctx.M with
  | none =>
    cases hb : ctx.biases with
    | none => exact ⟨_, rfl, rfl, rfl, rfl⟩
    | some bs => exact ⟨_, rfl, rfl, rfl, rfl⟩
  | some m =>
    have hb := hMb (by rw [hM]; rfl)
    cases hb2 : ctx.biases with
    | none =>
      rw [hb2] at hb
      simp at hb
    | some bs => exact ⟨_, rfl, rfl, rfl, rfl⟩

/-- Witness for C3: a backward call on the 1×1 identity context carrying a
bias and the identity `M`, with zero incoming gradient. -/
theorem backward_gradient_formulas_witness :
    ∃ grads, solve_torchfcn_backward vjpU vjpU
        (⟨identOp, some identM, some fun _ _ => (2:ℚ), 0, (), (), {}⟩ :
          Ctx Unit Unit 1 1 1) 0
        = .ok grads
      ∧ grads.grad_biases
          = (match (some fun _ _ => (2:ℚ) : Option (ColT 1 1)) with
             | none => none
             | some _ => some (sum1 ((0 : Tensor 1 1 1)
                 * (match (some identM : Option (MModule Unit 1 1 1)) with
                    | none => (0 : Tensor 1 1 1)
                    | some m => m.forward 0 ()))))
      ∧ grads.grad_params
          = vjpU (fun ps => -(identOp.forward 0 ps)) () 0
      ∧ grads.grad_mparams
          = (match (some identM : Option (MModule Unit 1 1 1)),
               (some fun _ _ => (2:ℚ) : Option (ColT 1 1)) with
             | some m, some bs =>
                some (vjpU (fun mp => m.forward
                    ((0 : Tensor 1 1 1) * bcast bs) mp) () 0)
             | _, _ => none) := by
  have hv : solve identOp () (0 : Tensor 1 1 1) (some fun _ _ => (2:ℚ))
      (some identM) () {} {} = .ok 0 := by
    apply solve_shortcut_ok identOp () 0 (some fun _ _ => (2:ℚ))
      (some identM) () {} {} rfl rfl (fun s hs => nomatch hs)
    rw [shiftedOp_zero identOp () (some fun _ _ => (2:ℚ)) _ () rfl
      (fun m hm => by cases hm; rfl)]
    exact allcloseZero_zero
  exact backward_gradient_formulas vjpU vjpU
    ⟨identOp, some identM, some fun _ _ => (2:ℚ), 0, (), (), {}⟩ 0 0 hv
    (fun _ => rfl)

end LinTorch
